import Mathlib

/-!
Verification of the FaderBridge UCNet protocol scripts.

Bytes are modelled as natural numbers (each in 0..255); byte strings as
`List Nat`.  IEEE-754 single-precision float values are modelled by their
32-bit little-endian bit patterns: `struct.pack` of a representable float is
the 4-byte pattern, `struct.unpack` recovers the same pattern, so byte-exact
round trips correspond to float-exact round trips on representable values.
Python `bytes.find` is modelled by `subfind` (relative index in a suffix),
Python slices by `List.drop`/`List.take` (which silently truncate exactly as
Python slices do).
-/

namespace FaderBridge

/-- UCNet magic constant `b'\x55\x43\x00\x01'` (discover_parameters.py line 25). -/
def MAGIC : List Nat := [85, 67, 0, 1]

/-- Frame type tag `UM` (hello). -/
def TYPE_HELLO : List Nat := [85, 77]

/-- Frame type tag `JM` (JSON / handshake). -/
def TYPE_JSON : List Nat := [74, 77]

/-- Frame type tag `PV` (parameter value, float). -/
def TYPE_PV : List Nat := [80, 86]

/-- Frame type tag `KA` (keepalive). -/
def TYPE_KA : List Nat := [75, 65]

/-- Frame type tag `PS` (parameter string). -/
def TYPE_PS : List Nat := [80, 83]

/-- Little-endian value of a byte list: `struct.unpack` of `<H` on 2 bytes
and of `<I` on 4 bytes. -/
def leNat (l : List Nat) : Nat := l.foldr (fun b acc => b + 256 * acc) 0

/-- The 4-byte little-endian pattern of a 32-bit word: `struct.pack('<f', v)`
with the float `v` represented by its bit pattern `w`. -/
def pack_f32 (w : Nat) : List Nat :=
  [w % 256, w / 256 % 256, w / 65536 % 256, w / 16777216 % 256]

/-- The 32-bit word denoted by 4 little-endian bytes: `struct.unpack('<f', b)`
with the resulting float represented by its bit pattern. -/
def unpack_f32 (l : List Nat) : Nat := leNat l

/-- build_packet (discover_parameters.py lines 35-38): magic, little-endian
2-byte size equal to `2 + len(payload)`, type, payload.  `struct.pack('<H', n)`
raises for `n ≥ 2^16`, hence the `Option`. -/
def build_packet (ptype payload : List Nat) : Option (List Nat) :=
  if 2 + payload.length < 65536 then
    some (MAGIC ++ [(2 + payload.length) % 256, (2 + payload.length) / 256] ++
      ptype ++ payload)
  else none

/-- build_pv (discover_parameters.py lines 62-68): payload is
cbytes(4) + key + NUL + two padding bytes + little-endian float. -/
def build_pv (key : List Nat) (w : Nat) (cbytes : List Nat) : Option (List Nat) :=
  build_packet TYPE_PV (cbytes ++ (key ++ [0]) ++ [0, 0] ++ pack_f32 w)

/-- Index of the first occurrence of `pat` in a byte list, if any
(the relative part of Python `bytes.find`). -/
def subfind (pat : List Nat) : List Nat → Option Nat
  | [] => if pat.isEmpty then some 0 else none
  | b :: rest =>
    if (b :: rest).take pat.length = pat then some 0
    else (subfind pat rest).map (· + 1)

/-- Python `data.find(pat, start)`: first occurrence at an index `≥ start`. -/
def bytes_find (data pat : List Nat) (start : Nat) : Option Nat :=
  (subfind pat (data.drop start)).map (fun k => start + k)

/-- One parsed UCNet packet, as filled in by parse_packets
(discover_parameters.py lines 92-98). -/
structure Packet where
  offset : Nat
  size : Nat
  ptype : List Nat
  payload : List Nat
deriving DecidableEq, Repr

/-- The scan loop of parse_packets (discover_parameters.py lines 71-101,
identical to find_packets in parse_zb_packets.py lines 18-48): while
`pos < len(data) - 8`, find the next magic; stop if none or if fewer than
8 bytes remain at it; if the declared frame overruns the buffer, resume the
scan at `idx + 1`; otherwise record the packet and jump past it. -/
def parse_packets_from (data : List Nat) (pos : Nat) : List Packet :=
  if h : pos < data.length - 8 then
    match subfind MAGIC (data.drop pos) with
    | none => []
    | some k =>
      let idx := pos + k
      if idx + 8 > data.length then []
      else
        let size := leNat ((data.drop (idx + 4)).take 2)
        let ptype := (data.drop (idx + 6)).take 2
        if idx + 6 + size > data.length then parse_packets_from data (idx + 1)
        else
          { offset := idx, size := size, ptype := ptype,
            payload := (data.drop (idx + 8)).take (size - 2) } ::
            parse_packets_from data (idx + 6 + size)
  else []
termination_by data.length - pos
decreasing_by
· omega
· omega

/-- parse_packets (discover_parameters.py line 71): scan from position 0. -/
def parse_packets (data : List Nat) : List Packet := parse_packets_from data 0

/-- Python-dict insertion: replace the value at an existing key in place,
else append (`params[key] = value`). -/
def dictInsert (d : List (List Nat × List Nat)) (k v : List Nat) :
    List (List Nat × List Nat) :=
  if d.any (fun p => decide (p.1 = k)) then
    d.map (fun p => if p.1 = k then (k, v) else p)
  else d ++ [(k, v)]

/-- One step of extract_pv_params (discover_parameters.py lines 104-130):
for a PV packet, skip payloads shorter than 10 bytes, find the NUL
terminating the key after the 4 cbytes (skip the packet when missing),
and store the trailing 4 bytes as the value when the payload reaches
`null_idx + 7` bytes. -/
def extract_pv_step (params : List (List Nat × List Nat)) (pkt : Packet) :
    List (List Nat × List Nat) :=
  if pkt.ptype = TYPE_PV then
    if pkt.payload.length < 10 then params
    else
      match subfind [0] (pkt.payload.drop 4) with
      | none => params
      | some k =>
        if 4 + k + 7 ≤ pkt.payload.length then
          dictInsert params ((pkt.payload.drop 4).take k)
            (pkt.payload.drop (pkt.payload.length - 4))
        else params
  else params

/-- extract_pv_params (discover_parameters.py lines 104-130). -/
def extract_pv_params (packets : List Packet) : List (List Nat × List Nat) :=
  packets.foldl extract_pv_step []

/-- One step of extract_ps_params (discover_parameters.py lines 133-163):
for a PS packet, skip payloads shorter than 10 bytes, find the NUL
terminating the key after the 4 cbytes (skip the packet when missing);
the string value starts at `null_idx + 3` (NUL plus two padding bytes) and
runs to the next NUL, or to the end of the payload when none follows. -/
def extract_ps_step (params : List (List Nat × List Nat)) (pkt : Packet) :
    List (List Nat × List Nat) :=
  if pkt.ptype = TYPE_PS then
    if pkt.payload.length < 10 then params
    else
      match subfind [0] (pkt.payload.drop 4) with
      | none => params
      | some k =>
        let tail := pkt.payload.drop (4 + k + 3)
        let value :=
          match subfind [0] tail with
          | none => tail
          | some j => tail.take j
        dictInsert params ((pkt.payload.drop 4).take k) value
  else params

/-- extract_ps_params (discover_parameters.py lines 133-163). -/
def extract_ps_params (packets : List Packet) : List (List Nat × List Nat) :=
  packets.foldl extract_ps_step []

/-- A packet as parsed by parse_packet in monitor_and_send.py (type, declared
size, payload). -/
structure MPacket where
  ptype : List Nat
  size : Nat
  payload : List Nat
deriving DecidableEq, Repr

/-- parse_packet (monitor_and_send.py lines 79-94): with fewer than 8 bytes
after `offset` return `(none, offset)`; on a magic mismatch return
`(none, offset + 1)`; when the declared frame overruns the buffer return
`(none, offset)` (incomplete, no bytes consumed); otherwise the packet and
`offset + 6 + size`. -/
def parse_packet (data : List Nat) (offset : Nat) : Option MPacket × Nat :=
  if data.length < offset + 8 then (none, offset)
  else if (data.drop offset).take 4 ≠ MAGIC then (none, offset + 1)
  else
    let size := leNat ((data.drop (offset + 4)).take 2)
    if data.length < offset + 6 + size then (none, offset)
    else
      (some { ptype := (data.drop (offset + 6)).take 2, size := size,
              payload := (data.drop (offset + 8)).take (size - 2) },
       offset + 6 + size)

/-- Printable ASCII, the `32 <= byte < 127` test of extract_strings
(parse_zb_packets.py line 71). -/
def isPrintableB (b : Nat) : Bool := decide (32 ≤ b) && decide (b < 127)

/-- ASCII letter, the `[a-zA-Z]` class of the path regex
(parse_zb_packets.py line 88). -/
def isLetterB (b : Nat) : Bool :=
  (decide (65 ≤ b) && decide (b ≤ 90)) || (decide (97 ≤ b) && decide (b ≤ 122))

/-- ASCII identifier character, the `[a-zA-Z0-9_]` class of the path regex
(parse_zb_packets.py line 88). -/
def isIdentB (b : Nat) : Bool :=
  isLetterB b || (decide (48 ≤ b) && decide (b ≤ 57)) || b == 95

/-- Worker of extract_strings (parse_zb_packets.py lines 65-81): accumulate
the current printable run (in reverse) and emit it when a non-printable byte
or the end of the data is reached and it has at least `minLen` characters. -/
def extract_strings_go (minLen : Nat) : List Nat → List Nat → List (List Nat)
  | [], cur => if minLen ≤ cur.length then [cur.reverse] else []
  | b :: rest, cur =>
    if isPrintableB b then extract_strings_go minLen rest (b :: cur)
    else if minLen ≤ cur.length then cur.reverse :: extract_strings_go minLen rest []
    else extract_strings_go minLen rest []

/-- extract_strings (parse_zb_packets.py lines 65-81). -/
def extract_strings (data : List Nat) (minLen : Nat) : List (List Nat) :=
  extract_strings_go minLen data []

/-- Deterministic matcher for the anchored path regex
`[a-zA-Z][a-zA-Z0-9_]*(/[a-zA-Z][a-zA-Z0-9_]*)+` of find_parameter_paths
(parse_zb_packets.py line 88), run character by character.  `state = 0`
expects the first letter of a segment, `state = 1` is inside a segment;
`count` counts started segments.  The input matches when it ends inside a
segment with at least two segments started.  Since `/` is not an identifier
character the greedy consumption is exact. -/
def pathRun : List Nat → Nat → Nat → Bool
  | [], state, count => state == 1 && decide (2 ≤ count)
  | b :: rest, 0, count =>
    if isLetterB b then pathRun rest 1 (count + 1) else false
  | b :: rest, _ + 1, count =>
    if isIdentB b then pathRun rest 1 count
    else if b == 47 then pathRun rest 0 count
    else false

/-- `path_pattern.match(s)` of find_parameter_paths (parse_zb_packets.py
lines 84-94). -/
def path_pattern_match (s : List Nat) : Bool := pathRun s 0 0

/-- find_parameter_paths (parse_zb_packets.py lines 84-94): keep exactly the
strings matching the path regex. -/
def find_parameter_paths (strings : List (List Nat)) : List (List Nat) :=
  strings.filter path_pattern_match

/-- Join segments with the `/` byte (47), the reading of a path as
slash-separated segments. -/
def joinSlash : List (List Nat) → List Nat
  | [] => []
  | [p] => p
  | p :: q :: ps => p ++ 47 :: joinSlash (q :: ps)

/-- A well-formed path segment: nonempty, ASCII letter first, then ASCII
identifier characters. -/
def SegGood (p : List Nat) : Prop :=
  ∃ c cs, p = c :: cs ∧ isLetterB c = true ∧ ∀ b ∈ cs, isIdentB b = true

/-- The client token `b'\x72\x00\x65\x00'` used by the scripts for their own
Subscribe and fallback PV frames (test_mixer_control.py lines 59, 150). -/
def UC_CBYTES : List Nat := [114, 0, 101, 0]

/-- First 4 bytes of a frame's payload (the payload starts at byte 8 of the
encoded frame, after magic, size and type). -/
def payloadToken (frame : List Nat) : List Nat := (frame.drop 8).take 4

/-- The outbound PV frames test_mixer_control.py main sends after extracting
the session cbytes from the SubscriptionReply (lines 141-151): first a frame
built with the session token, then a second copy built with the fixed client
token `0x72 0x00 0x65 0x00`.  The same pair is sent by
discover_parameters.py test_parameter (lines 330-341). -/
def mixer_control_outbound (key : List Nat) (w : Nat) (session_cbytes : List Nat) :
    List (Option (List Nat)) :=
  [build_pv key w session_cbytes, build_pv key w UC_CBYTES]

/-- Client-to-daemon direction token `b'\x75\x00\x68\x00'`
(test_ucdaemon_control.py line 33). -/
def DIR_CLIENT_TO_DAEMON : List Nat := [117, 0, 104, 0]

/-- build_parameter_packet (test_ucdaemon_control.py lines 58-101): payload
is the client-to-daemon direction token, the NUL-terminated path, two
padding bytes (the alignment computation at lines 84-88 is dead code,
overwritten by the fixed `b'\x00\x00'` at line 95), and the little-endian
float — the same layout as build_pv with the direction token as cbytes. -/
def build_parameter_packet (path : List Nat) (w : Nat) : Option (List Nat) :=
  build_pv path w DIR_CLIENT_TO_DAEMON

/-- UCDaemonClient.set_parameter (test_ucdaemon_control.py lines 275-286):
with no socket it prints `Not connected` and returns, writing nothing;
with a socket it builds the PV frame and sends it unconditionally.  The
client carries no session-phase state at all — `connect()` (lines 134-153)
fires Hello and Subscribe without awaiting any acceptance, and no
SessionNotReady error exists anywhere in the scripts — so `connected` (the
truthiness of `self.sock`) is the only guard.  `some frame` is the byte
string passed to `sock.send`; `none` means nothing is written (either the
disconnected early return or, for paths past the u16 size limit, the
`struct.pack` failure inside the builder). -/
def set_parameter : Bool → List Nat → Nat → Option (List Nat)
  | false, _, _ => none
  | true, path, w => build_parameter_packet path w

/-- The JM payload decoding of receiver_thread (monitor_and_send.py lines
130-135, identically dump_state.py lines 124-129 and replay_uc_packet.py
lines 181-189): when the payload exceeds 8 bytes, read the 4-byte
little-endian JSON length at offset 4 and slice `payload[8:8+json_len]`;
the Python slice silently truncates at the end of the payload. -/
def jm_json_data (payload : List Nat) : Option (List Nat) :=
  if 8 < payload.length then
    some ((payload.drop 8).take (leNat ((payload.drop 4).take 4)))
  else none

lemma drop_append_add (g X : List Nat) (k : Nat) :
    (g ++ X).drop (g.length + k) = X.drop k := by
  induction g with
  | nil => simp
  | cons a g ih => simpa [Nat.succ_add] using ih

lemma take_append_len (X Y : List Nat) (n : Nat) (hn : X.length = n) :
    (X ++ Y).take n = X := by
  subst hn
  exact List.take_left X Y

lemma drop_append_len (X Y : List Nat) (n : Nat) (hn : X.length = n) :
    (X ++ Y).drop n = Y := by
  subst hn
  simpa using drop_append_add X Y 0

/-- Finding the magic in garbage followed by a frame: when the garbage holds
no occurrence, the first occurrence is exactly at the start of the frame
(the magic `55 43 00 01` has no nontrivial border, so no occurrence can
straddle the boundary). -/
lemma subfind_magic_append (g rest : List Nat) (hg : subfind MAGIC g = none) :
    subfind MAGIC (g ++ (MAGIC ++ rest)) = some g.length := by
  induction g with
  | nil =>
    show subfind MAGIC ([85, 67, 0, 1] ++ rest) = some 0
    rw [List.cons_append, subfind]
    simp [MAGIC, List.take]
  | cons a g ih =>
    rw [subfind] at hg
    by_cases hchk : (a :: g).take MAGIC.length = MAGIC
    · simp [hchk] at hg
    · rw [if_neg hchk] at hg
      have hg2 : subfind MAGIC g = none := by
        rcases he : subfind MAGIC g with _ | v
        · rfl
        · rw [he] at hg; simp at hg
      have ihx := ih hg2
      have hchk2 : ¬ ((a :: (g ++ (MAGIC ++ rest))).take MAGIC.length = MAGIC) := by
        rcases g with _ | ⟨b, _ | ⟨c, _ | ⟨d, t⟩⟩⟩ <;>
          simp_all [MAGIC, List.take]
      rw [List.cons_append, subfind, if_neg hchk2, ihx]
      simp

/-- Parsing a buffer made of magic-free garbage followed by one complete
well-formed frame yields exactly that frame, at offset `g.length`, provided
the buffer is longer than 8 bytes. -/
lemma parse_one_frame (g ptype payload : List Nat)
    (hg : subfind MAGIC g = none) (hpt : ptype.length = 2)
    (hne : 0 < g.length + payload.length) :
    parse_packets
        (g ++ (MAGIC ++ ([(2 + payload.length) % 256, (2 + payload.length) / 256] ++
          (ptype ++ payload)))) =
      [{ offset := g.length, size := 2 + payload.length, ptype := ptype,
         payload := payload }] := by
  set n := 2 + payload.length with hn
  set rest := [n % 256, n / 256] ++ (ptype ++ payload) with hrest
  set data := g ++ (MAGIC ++ rest) with hdata
  have hlen : data.length = g.length + 8 + payload.length := by
    rw [hdata, hrest]
    simp [MAGIC, hpt]
    omega
  have e1 : subfind MAGIC (data.drop 0) = some g.length := by
    rw [List.drop_zero, hdata]
    exact subfind_magic_append g rest hg
  have edrop : ∀ k : Nat, data.drop (g.length + k) = (MAGIC ++ rest).drop k := by
    intro k
    rw [hdata]
    exact drop_append_add g (MAGIC ++ rest) k
  have e2 : (data.drop (g.length + 4)).take 2 = [n % 256, n / 256] := by
    rw [edrop 4, drop_append_len MAGIC rest 4 (by rfl), hrest]
    exact take_append_len _ _ 2 (by rfl)
  have hsize : leNat [n % 256, n / 256] = n := by
    show n % 256 + 256 * (n / 256 + 256 * 0) = n
    omega
  have e3 : (data.drop (g.length + 6)).take 2 = ptype := by
    rw [edrop 6, hrest]
    rw [show (6 : Nat) = 4 + 2 from rfl, ← List.drop_drop]
    rw [drop_append_len MAGIC _ 4 (by rfl)]
    rw [drop_append_len [n % 256, n / 256] _ 2 (by rfl)]
    exact take_append_len _ _ 2 hpt
  have e4 : (data.drop (g.length + 8)).take (n - 2) = payload := by
    rw [edrop 8, hrest]
    rw [show (8 : Nat) = 4 + 4 from rfl, ← List.drop_drop]
    rw [drop_append_len MAGIC _ 4 (by rfl)]
    rw [show (4 : Nat) = 2 + 2 from rfl, ← List.drop_drop]
    rw [drop_append_len [n % 256, n / 256] _ 2 (by rfl)]
    rw [drop_append_len ptype payload 2 hpt]
    rw [show n - 2 = payload.length by omega]
    exact List.take_length payload
  have hrec : parse_packets_from data (g.length + 6 + n) = [] := by
    rw [parse_packets_from.eq_def, dif_neg (by omega)]
  rw [parse_packets, parse_packets_from.eq_def, dif_pos (by omega), e1]
  simp only [Nat.zero_add]
  rw [if_neg (by omega), e2, hsize, e3, if_neg (by omega), e4, hrec]

/-- The first NUL after a NUL-free prefix sits exactly at the end of that
prefix. -/
lemma subfind_zero_after (path t : List Nat) (hnz : ∀ b ∈ path, b ≠ 0) :
    subfind [0] (path ++ 0 :: t) = some path.length := by
  induction path with
  | nil =>
    rw [List.nil_append, subfind]
    simp [List.take]
  | cons a p ih =>
    have ha : a ≠ 0 := hnz a (by simp)
    have ihx := ih (fun b hb => hnz b (by simp [hb]))
    rw [List.cons_append, subfind]
    rw [if_neg (by simp [List.take, ha])]
    rw [ihx]
    simp

/-- When the list holds no NUL at all, `subfind` reports none. -/
lemma subfind_zero_none (l : List Nat) (hnz : ∀ b ∈ l, b ≠ 0) :
    subfind [0] l = none := by
  induction l with
  | nil => rfl
  | cons a p ih =>
    have ha : a ≠ 0 := hnz a (by simp)
    rw [subfind, if_neg (by simp [List.take, ha])]
    rw [ih (fun b hb => hnz b (by simp [hb]))]
    rfl

/-- The slice up to the first NUL (or the whole list when none occurs) is
`takeWhile (· ≠ 0)`. -/
lemma subfind_zero_takeWhile (l : List Nat) :
    (match subfind [0] l with
      | none => l
      | some j => l.take j) = l.takeWhile (fun b => decide (b ≠ 0)) := by
  induction l with
  | nil => rfl
  | cons a p ih =>
    by_cases ha : a = 0
    · subst ha
      rw [subfind]
      simp [List.take, List.takeWhile]
    · rw [subfind, if_neg (by simp [List.take, ha])]
      rw [List.takeWhile_cons, if_pos (by simp [ha])]
      rcases he : subfind [0] p with _ | j <;> rw [he] at ih
      · simpa using ih
      · simpa using ih

/-- Extraction of a single well-formed PV packet: the key is the NUL-free
path after the 4 cbytes and the value is the trailing 4 bytes. -/
lemma extract_pv_single (off sz : Nat) (token path val4 : List Nat)
    (htok : token.length = 4) (hnz : ∀ b ∈ path, b ≠ 0) (hval : val4.length = 4) :
    extract_pv_params
        [{ offset := off, size := sz, ptype := TYPE_PV,
           payload := token ++ (path ++ 0 :: 0 :: 0 :: val4) }] = [(path, val4)] := by
  have hlen : (token ++ (path ++ 0 :: 0 :: 0 :: val4)).length = path.length + 11 := by
    simp [htok, hval]
    omega
  have hdrop4 : (token ++ (path ++ 0 :: 0 :: 0 :: val4)).drop 4 =
      path ++ 0 :: 0 :: 0 :: val4 :=
    drop_append_len _ _ 4 htok
  have hfind : subfind [0] (path ++ 0 :: 0 :: 0 :: val4) = some path.length := by
    have := subfind_zero_after path (0 :: 0 :: val4) hnz
    simpa using this
  have hkey : (path ++ 0 :: 0 :: 0 :: val4).take path.length = path :=
    take_append_len _ _ _ rfl
  have hvaleq : (token ++ (path ++ 0 :: 0 :: 0 :: val4)).drop (path.length + 11 - 4) =
      val4 := by
    have hsplit : token ++ (path ++ 0 :: 0 :: 0 :: val4) =
        (token ++ (path ++ [0, 0, 0])) ++ val4 := by
      simp
    rw [hsplit]
    apply drop_append_len
    simp [htok]
    omega
  unfold extract_pv_params
  rw [List.foldl_cons, List.foldl_nil]
  unfold extract_pv_step
  dsimp only
  rw [if_pos rfl, hlen, if_neg (by omega), hdrop4, hfind]
  dsimp only
  rw [if_pos (by omega), hkey, hvaleq]
  unfold dictInsert
  simp

/-- Extraction of a single PS packet whose payload is a 4-byte token, a
NUL-free path, its NUL, and at least 10 bytes in total: the value is the
slice starting 3 bytes after the path's NUL, up to the next NUL or the end
of the payload. -/
lemma extract_ps_single (off sz : Nat) (token path rest : List Nat)
    (htok : token.length = 4) (hnz : ∀ b ∈ path, b ≠ 0)
    (hlen10 : 10 ≤ 5 + path.length + rest.length) :
    extract_ps_params
        [{ offset := off, size := sz, ptype := TYPE_PS,
           payload := token ++ (path ++ 0 :: rest) }] =
      [(path, (rest.drop 2).takeWhile (fun b => decide (b ≠ 0)))] := by
  have hlen : (token ++ (path ++ 0 :: rest)).length = 5 + path.length + rest.length := by
    simp [htok]
    omega
  have hdrop4 : (token ++ (path ++ 0 :: rest)).drop 4 = path ++ 0 :: rest :=
    drop_append_len _ _ 4 htok
  have hfind : subfind [0] (path ++ 0 :: rest) = some path.length :=
    subfind_zero_after path rest hnz
  have hkey : (path ++ 0 :: rest).take path.length = path :=
    take_append_len _ _ _ rfl
  have htail : (token ++ (path ++ 0 :: rest)).drop (4 + path.length + 3) =
      rest.drop 2 := by
    have hsplit : token ++ (path ++ 0 :: rest) = (token ++ (path ++ [0])) ++ rest := by
      simp
    have hix : 4 + path.length + 3 = (token ++ (path ++ [0])).length + 2 := by
      simp [htok]
      omega
    rw [hsplit, hix]
    exact drop_append_add _ _ 2
  have hvalue :
      (match subfind [0] (rest.drop 2) with
        | none => rest.drop 2
        | some j => (rest.drop 2).take j) =
        (rest.drop 2).takeWhile (fun b => decide (b ≠ 0)) :=
    subfind_zero_takeWhile (rest.drop 2)
  unfold extract_ps_params
  rw [List.foldl_cons, List.foldl_nil]
  unfold extract_ps_step
  dsimp only
  rw [if_pos rfl, hlen, if_neg (by omega), hdrop4, hfind]
  dsimp only
  rw [htail, hkey]
  rcases he : subfind [0] (rest.drop 2) with _ | j <;> rw [he] at hvalue
  · rw [hvalue]
    unfold dictInsert
    simp
  · rw [hvalue]
    unfold dictInsert
    simp

/-- C2: for every non-empty ASCII NUL-free path, 4-byte token and float value
(represented by its 32-bit pattern `w`), decoding the PV packet built from
them yields exactly one parameter update `(path, pack_f32 w)`, and unpacking
the packed pattern recovers `w` exactly. -/
theorem pv_roundtrip (path token : List Nat) (w : Nat) (pkt : List Nat)
    (hpath : path ≠ []) (hbytes : ∀ b ∈ path, b ≠ 0 ∧ b < 128)
    (htok : token.length = 4) (hw : w < 4294967296)
    (hb : build_pv path w token = some pkt) :
    extract_pv_params (parse_packets pkt) = [(path, pack_f32 w)] ∧
      unpack_f32 (pack_f32 w) = w := by
  have hnz : ∀ b ∈ path, b ≠ 0 := fun b hmem => (hbytes b hmem).1
  set pvp := token ++ (path ++ [0]) ++ [0, 0] ++ pack_f32 w with hpvp
  constructor
  · unfold build_pv build_packet at hb
    rw [← hpvp] at hb
    split at hb
    case isFalse => exact absurd hb (by simp)
    case isTrue hcond =>
      have hpkt : pkt = MAGIC ++ [(2 + pvp.length) % 256, (2 + pvp.length) / 256] ++
          TYPE_PV ++ pvp := (Option.some.inj hb).symm
      have hplen : pvp.length = path.length + 11 := by
        rw [hpvp]
        simp [htok, pack_f32]
        omega
      have harg : pkt = [] ++ (MAGIC ++
          ([(2 + pvp.length) % 256, (2 + pvp.length) / 256] ++ (TYPE_PV ++ pvp))) := by
        rw [hpkt]
        simp
      have hparse := parse_one_frame [] TYPE_PV pvp (by rfl) (by rfl) (by omega)
      rw [harg, hparse]
      have hshape : pvp = token ++ (path ++ 0 :: 0 :: 0 :: pack_f32 w) := by
        rw [hpvp]
        simp
      rw [hshape]
      exact extract_pv_single 0 (2 + pvp.length) token path (pack_f32 w) htok hnz
        (by simp [pack_f32])
  · show w % 256 + 256 * (w / 256 % 256 + 256 * (w / 65536 % 256 +
      256 * (w / 16777216 % 256 + 256 * 0))) = w
    omega

/-- Witness for C2 at path `m`, token `r\0e\0`, value pattern 0. -/
theorem pv_roundtrip_witness :
    extract_pv_params (parse_packets
        [85, 67, 0, 1, 14, 0, 80, 86, 114, 0, 101, 0, 109, 0, 0, 0, 0, 0, 0, 0]) =
      [([109], pack_f32 0)] ∧ unpack_f32 (pack_f32 0) = 0 :=
  pv_roundtrip [109] [114, 0, 101, 0] 0 _ (by decide) (by decide) (by decide)
    (by decide) (by decide)

/-- C3 counterexample: a complete valid encoded KA frame with empty payload
(8 bytes) preceded by no garbage decodes to zero frames, not one, because
the scan loop requires `pos < len(data) - 8`. -/
theorem resync_counterexample :
    build_packet TYPE_KA [] = some [85, 67, 0, 1, 2, 0, 75, 65] ∧
    parse_packets [85, 67, 0, 1, 2, 0, 75, 65] = [] := by
  constructor
  · decide
  · rw [parse_packets, parse_packets_from.eq_def, dif_neg (by decide)]

/-- C3 (amended): for every magic-free garbage prefix and every completely
received valid encoded frame, parsing the concatenation yields exactly that
one frame with its type and payload unchanged and the garbage discarded —
provided the buffer is longer than 8 bytes (garbage and payload not both
empty); the single 8-byte frame alone is missed by the scan loop. -/
theorem resync_single_frame (g ptype payload fr : List Nat)
    (hg : subfind MAGIC g = none) (hpt : ptype.length = 2)
    (hb : build_packet ptype payload = some fr)
    (hne : 0 < g.length + payload.length) :
    parse_packets (g ++ fr) =
      [{ offset := g.length, size := 2 + payload.length, ptype := ptype,
         payload := payload }] := by
  unfold build_packet at hb
  split at hb
  case isFalse => exact absurd hb (by simp)
  case isTrue hcond =>
    have hfr : fr = MAGIC ++ [(2 + payload.length) % 256, (2 + payload.length) / 256] ++
        ptype ++ payload := (Option.some.inj hb).symm
    have harg : g ++ fr = g ++ (MAGIC ++
        ([(2 + payload.length) % 256, (2 + payload.length) / 256] ++
          (ptype ++ payload))) := by
      rw [hfr]
      simp
    rw [harg]
    exact parse_one_frame g ptype payload hg hpt hne

/-- Witness for C3 (amended): 3 garbage bytes followed by an empty-payload
KA frame decode to exactly that frame at offset 3. -/
theorem resync_single_frame_witness :
    parse_packets ([1, 2, 3] ++ [85, 67, 0, 1, 2, 0, 75, 65]) =
      [{ offset := 3, size := 2, ptype := TYPE_KA, payload := [] }] :=
  resync_single_frame [1, 2, 3] TYPE_KA [] _ (by decide) (by decide) (by decide)
    (by decide)

/-- C4: a buffer that begins with the magic but whose declared frame length
exceeds the available bytes makes parse_packet signal incomplete: no packet
and the offset unchanged (no bytes consumed). -/
theorem parse_packet_incomplete (data : List Nat)
    (hm : data.take 4 = MAGIC) (h8 : 8 ≤ data.length)
    (hshort : data.length < 6 + leNat ((data.drop 4).take 2)) :
    parse_packet data 0 = (none, 0) := by
  unfold parse_packet
  simp only [Nat.zero_add, List.drop_zero]
  rw [if_neg (by omega), if_neg (by simp [hm]), if_pos hshort]

/-- Witness for C4: magic followed by declared size 100 and only 2 more
bytes. -/
theorem parse_packet_incomplete_witness :
    parse_packet [85, 67, 0, 1, 100, 0, 75, 65] 0 = (none, 0) :=
  parse_packet_incomplete [85, 67, 0, 1, 100, 0, 75, 65] (by decide) (by decide)
    (by decide)

/-- C5 counterexample: immediately after `connect()` — connected, but before
any subscribe acknowledgment has been received (the client tracks no phase
and `connect()` never awaits acceptance) — `set_parameter` for path `m`,
value pattern 0 writes a complete PV frame to the transport and produces no
error: no SessionNotReady check exists. -/
theorem session_not_ready_counterexample :
    set_parameter true [109] 0 =
      some [85, 67, 0, 1, 14, 0, 80, 86, 117, 0, 104, 0, 109, 0, 0, 0, 0, 0, 0, 0] := by
  decide

/-- C5 (amended): UCDaemonClient.set_parameter performs no session-phase
check and knows no SessionNotReady error: with no socket it writes nothing
and returns silently; with a connected socket it encodes and writes the PV
frame — carrying the client-to-daemon direction token in the first 4
payload bytes — unconditionally, in every session state, in particular
before any subscribe acknowledgment has been received. -/
theorem set_parameter_unconditional (path : List Nat) (w : Nat)
    (hk : path.length ≤ 65522) :
    set_parameter false path w = none ∧
    ∃ fr, set_parameter true path w = some fr ∧
      payloadToken fr = DIR_CLIENT_TO_DAEMON := by
  refine ⟨rfl, ?_⟩
  show ∃ fr, build_parameter_packet path w = some fr ∧
    payloadToken fr = DIR_CLIENT_TO_DAEMON
  unfold build_parameter_packet build_pv build_packet
  rw [if_pos (by simp [DIR_CLIENT_TO_DAEMON, pack_f32]; omega)]
  refine ⟨_, rfl, ?_⟩
  unfold payloadToken
  have hsplit : MAGIC ++
      [(2 + (DIR_CLIENT_TO_DAEMON ++ (path ++ [0]) ++ [0, 0] ++ pack_f32 w).length) % 256,
       (2 + (DIR_CLIENT_TO_DAEMON ++ (path ++ [0]) ++ [0, 0] ++ pack_f32 w).length) / 256] ++
      TYPE_PV ++ (DIR_CLIENT_TO_DAEMON ++ (path ++ [0]) ++ [0, 0] ++ pack_f32 w) =
      (MAGIC ++
        [(2 + (DIR_CLIENT_TO_DAEMON ++ (path ++ [0]) ++ [0, 0] ++ pack_f32 w).length) % 256,
         (2 + (DIR_CLIENT_TO_DAEMON ++ (path ++ [0]) ++ [0, 0] ++ pack_f32 w).length) / 256] ++
        TYPE_PV) ++
        (DIR_CLIENT_TO_DAEMON ++ ((path ++ [0]) ++ ([0, 0] ++ pack_f32 w))) := by
    simp
  rw [hsplit, drop_append_len _ _ 8 (by simp [MAGIC, TYPE_PV])]
  exact take_append_len _ _ 4 (by rfl)

/-- Witness for C5 (amended) at path `m`: disconnected writes nothing,
connected writes a frame whose payload starts with the direction token. -/
theorem set_parameter_unconditional_witness :
    set_parameter false [109] 0 = none ∧
    ∃ fr, set_parameter true [109] 0 = some fr ∧
      payloadToken fr = DIR_CLIENT_TO_DAEMON :=
  set_parameter_unconditional [109] 0 (by decide)

/-- C6: a parameter frame whose payload has no NUL after the 4-byte token,
or is shorter than the 10-byte minimum, contributes no update to either
extraction, and the surrounding frames are decoded exactly as if it were
absent; both extraction functions are total, so no exception is possible. -/
theorem malformed_parameter_skipped (pre post : List Packet) (bad : Packet)
    (hbad : subfind [0] (bad.payload.drop 4) = none ∨ bad.payload.length < 10) :
    extract_pv_params (pre ++ bad :: post) = extract_pv_params (pre ++ post) ∧
    extract_ps_params (pre ++ bad :: post) = extract_ps_params (pre ++ post) := by
  have hpv : ∀ acc, extract_pv_step acc bad = acc := by
    intro acc
    unfold extract_pv_step
    by_cases ht : bad.ptype = TYPE_PV
    · rw [if_pos ht]
      by_cases hl : bad.payload.length < 10
      · rw [if_pos hl]
      · rcases hbad with hfind | hlen
        · rw [if_neg hl, hfind]
        · exact absurd hlen hl
    · rw [if_neg ht]
  have hps : ∀ acc, extract_ps_step acc bad = acc := by
    intro acc
    unfold extract_ps_step
    by_cases ht : bad.ptype = TYPE_PS
    · rw [if_pos ht]
      by_cases hl : bad.payload.length < 10
      · rw [if_pos hl]
      · rcases hbad with hfind | hlen
        · rw [if_neg hl, hfind]
        · exact absurd hlen hl
    · rw [if_neg ht]
  constructor
  · unfold extract_pv_params
    rw [List.foldl_append, List.foldl_cons, hpv, ← List.foldl_append]
  · unfold extract_ps_params
    rw [List.foldl_append, List.foldl_cons, hps, ← List.foldl_append]

/-- Witness for C6: a 3-byte PV payload between two well-formed frames is
skipped. -/
theorem malformed_parameter_skipped_witness :
    extract_pv_params ([] ++ Packet.mk 0 5 TYPE_PV [1, 2, 3] :: []) =
      extract_pv_params ([] ++ []) ∧
    extract_ps_params ([] ++ Packet.mk 0 5 TYPE_PV [1, 2, 3] :: []) =
      extract_ps_params ([] ++ []) :=
  malformed_parameter_skipped [] [] (Packet.mk 0 5 TYPE_PV [1, 2, 3])
    (Or.inr (by decide))

/-- C7 counterexample: the smallest payload of the claimed shape — 4-byte
token, 1-byte path, its NUL, and exactly 2 further bytes (8 bytes in all) —
is dropped by the 10-byte minimum-size guard, so no value is decoded at all. -/
theorem ps_min_size_counterexample :
    ([114, 0, 101, 0] ++ ([97] ++ 0 :: [0, 0]) : List Nat) =
      [114, 0, 101, 0, 97, 0, 0, 0] ∧
    extract_ps_params
        [{ offset := 0, size := 10, ptype := TYPE_PS,
           payload := [114, 0, 101, 0, 97, 0, 0, 0] }] = [] := by
  constructor
  · decide
  · decide

/-- C7 (amended): for every PS payload made of a 4-byte token, a non-empty
NUL-free path, its NUL, and at least 2 further bytes, provided the payload
reaches the 10-byte minimum, the decoded value starts 3 bytes after the
path's NUL (skipping the NUL and 2 padding bytes) and runs to the next NUL
or, failing that, to the end of the payload. -/
theorem ps_value_offset (off sz : Nat) (token path rest : List Nat)
    (htok : token.length = 4) (hpath : path ≠ []) (hnz : ∀ b ∈ path, b ≠ 0)
    (hrest2 : 2 ≤ rest.length) (hmin : 10 ≤ 5 + path.length + rest.length) :
    extract_ps_params
        [{ offset := off, size := sz, ptype := TYPE_PS,
           payload := token ++ (path ++ 0 :: rest) }] =
      [(path, (rest.drop 2).takeWhile (fun b => decide (b ≠ 0)))] :=
  extract_ps_single off sz token path rest htok hnz hmin

/-- Witness for C7 (amended): path `ab`, value `hi` terminated by a NUL. -/
theorem ps_value_offset_witness :
    extract_ps_params
        [{ offset := 0, size := 14, ptype := TYPE_PS,
           payload := [106, 0, 101, 0] ++ ([97, 98] ++ 0 :: [0, 0, 104, 105, 0, 120]) }] =
      [([97, 98], [104, 105])] :=
  ps_value_offset 0 14 [106, 0, 101, 0] [97, 98] [0, 0, 104, 105, 0, 120]
    (by decide) (by decide) (by decide) (by decide) (by decide)

/-- C10: when a JM payload's declared 4-byte little-endian JSON length
exceeds the bytes present after the 8-byte prefix, the slice silently
truncates: the decoded JSON text is exactly the remaining bytes, with no
error and no out-of-bounds access (the decoder is total). -/
theorem jm_overdeclared_truncates (payload : List Nat)
    (h8 : 8 < payload.length)
    (hover : payload.length - 8 < leNat ((payload.drop 4).take 4)) :
    jm_json_data payload = some (payload.drop 8) := by
  unfold jm_json_data
  rw [if_pos h8]
  congr 1
  have hle : (payload.drop 8).length ≤ leNat ((payload.drop 4).take 4) := by
    rw [List.length_drop]
    omega
  exact List.take_of_length_le hle

/-- Witness for C10: a 10-byte JM payload declaring a 255-byte JSON body
decodes to the 2 remaining bytes. -/
theorem jm_overdeclared_truncates_witness :
    jm_json_data [1, 2, 3, 4, 255, 0, 0, 0, 9, 9] = some [9, 9] :=
  jm_overdeclared_truncates [1, 2, 3, 4, 255, 0, 0, 0, 9, 9] (by decide) (by decide)

/-- C1 counterexample: with observed session token `e\0j\0`, the script's
second outbound PV frame for key `m`, value pattern 0 is encoded with the
original client token `r\0e\0`, not with the session token — so not every
outbound parameter frame carries the session token. -/
theorem token_adoption_counterexample :
    (mixer_control_outbound [109] 0 [101, 0, 106, 0]).map (Option.map payloadToken) =
      [some [101, 0, 106, 0], some [114, 0, 101, 0]] ∧
    ([114, 0, 101, 0] : List Nat) ≠ [101, 0, 106, 0] := by
  constructor
  · decide
  · decide

/-- C1 (amended): after the acceptance reply carrying the 4-byte session
token T is observed, the script encodes its first outbound parameter frame
with T, but then always sends a second copy of the frame encoded with the
original client-chosen token `0x72 0x00 0x65 0x00`; outbound parameter
frames therefore use both T and the original token, not T alone. -/
theorem mixer_outbound_token_usage (key T : List Nat) (w : Nat)
    (hT : T.length = 4) (hk : key.length ≤ 65522) :
    (mixer_control_outbound key w T).map (Option.map payloadToken) =
      [some T, some UC_CBYTES] := by
  have hbuild : ∀ cb : List Nat, cb.length = 4 →
      Option.map payloadToken (build_pv key w cb) = some cb := by
    intro cb hcb
    unfold build_pv build_packet
    rw [if_pos (by simp [hcb, pack_f32]; omega)]
    unfold payloadToken
    simp only [Option.map_some']
    congr 1
    have hsplit : MAGIC ++
        [(2 + (cb ++ (key ++ [0]) ++ [0, 0] ++ pack_f32 w).length) % 256,
         (2 + (cb ++ (key ++ [0]) ++ [0, 0] ++ pack_f32 w).length) / 256] ++
        TYPE_PV ++ (cb ++ (key ++ [0]) ++ [0, 0] ++ pack_f32 w) =
        (MAGIC ++
          [(2 + (cb ++ (key ++ [0]) ++ [0, 0] ++ pack_f32 w).length) % 256,
           (2 + (cb ++ (key ++ [0]) ++ [0, 0] ++ pack_f32 w).length) / 256] ++
          TYPE_PV) ++ (cb ++ ((key ++ [0]) ++ ([0, 0] ++ pack_f32 w))) := by
      simp
    rw [hsplit, drop_append_len _ _ 8 (by simp [MAGIC, TYPE_PV])]
    exact take_append_len _ _ 4 hcb
  unfold mixer_control_outbound
  simp only [List.map_cons, List.map_nil]
  rw [hbuild T hT, hbuild UC_CBYTES (by rfl)]

/-- Witness for C1 (amended) at key `m`, session token `e\0j\0`. -/
theorem mixer_outbound_token_usage_witness :
    (mixer_control_outbound [109] 0 [101, 0, 106, 0]).map (Option.map payloadToken) =
      [some [101, 0, 106, 0], some UC_CBYTES] :=
  mixer_outbound_token_usage [109] [101, 0, 106, 0] 0 (by decide) (by decide)

/-- Every packet produced by a scan starting at `pos` sits at an offset of at
least `pos`. -/
lemma parse_from_offset_lb (data : List Nat) :
    ∀ n pos, data.length ≤ pos + n →
      ∀ p ∈ parse_packets_from data pos, pos ≤ p.offset := by
  intro n
  induction n with
  | zero =>
    intro pos hle p hp
    rw [parse_packets_from.eq_def, dif_neg (by omega)] at hp
    exact absurd hp (by simp)
  | succ n ih =>
    intro pos hle p hp
    rw [parse_packets_from.eq_def] at hp
    by_cases hc : pos < data.length - 8
    · rw [dif_pos hc] at hp
      rcases hsf : subfind MAGIC (data.drop pos) with _ | k <;> rw [hsf] at hp
      · exact absurd hp (by simp)
      · dsimp only at hp
        by_cases h8 : pos + k + 8 > data.length
        · rw [if_pos h8] at hp
          exact absurd hp (by simp)
        · rw [if_neg h8] at hp
          by_cases hbig :
              pos + k + 6 + leNat ((data.drop (pos + k + 4)).take 2) > data.length
          · rw [if_pos hbig] at hp
            have hlb := ih (pos + k + 1) (by omega) p hp
            omega
          · rw [if_neg hbig] at hp
            rcases List.mem_cons.mp hp with hq | hq
            · rw [hq]
              dsimp only
              omega
            · have hlb := ih (pos + k + 6 + leNat ((data.drop (pos + k + 4)).take 2))
                (by omega) p hq
              omega
    · rw [dif_neg hc] at hp
      exact absurd hp (by simp)

/-- The offsets of the packets produced by a scan starting at `pos` are
strictly increasing. -/
lemma parse_from_sorted (data : List Nat) :
    ∀ n pos, data.length ≤ pos + n →
      ((parse_packets_from data pos).map Packet.offset).Pairwise (· < ·) := by
  intro n
  induction n with
  | zero =>
    intro pos hle
    rw [parse_packets_from.eq_def, dif_neg (by omega)]
    simp
  | succ n ih =>
    intro pos hle
    rw [parse_packets_from.eq_def]
    by_cases hc : pos < data.length - 8
    · rw [dif_pos hc]
      rcases hsf : subfind MAGIC (data.drop pos) with _ | k
      · simp
      · dsimp only
        by_cases h8 : pos + k + 8 > data.length
        · rw [if_pos h8]
          simp
        · rw [if_neg h8]
          by_cases hbig :
              pos + k + 6 + leNat ((data.drop (pos + k + 4)).take 2) > data.length
          · rw [if_pos hbig]
            exact ih (pos + k + 1) (by omega)
          · rw [if_neg hbig]
            rw [List.map_cons]
            refine List.Pairwise.cons ?_
              (ih (pos + k + 6 + leNat ((data.drop (pos + k + 4)).take 2)) (by omega))
            intro o ho
            rcases List.mem_map.mp ho with ⟨q, hq, rfl⟩
            have hlb := parse_from_offset_lb data n
              (pos + k + 6 + leNat ((data.drop (pos + k + 4)).take 2)) (by omega) q hq
            dsimp only
            omega
    · rw [dif_neg hc]
      simp

/-- C9: one parse pass yields frames strictly in buffer order — the sequence
of frame start offsets in the returned list is strictly increasing, so there
is no reordering or batching across frame boundaries. -/
theorem parse_packets_offsets_sorted (data : List Nat) :
    ((parse_packets data).map Packet.offset).Pairwise (· < ·) :=
  parse_from_sorted data data.length 0 (by omega)

lemma joinSlash_cons (p : List Nat) (parts : List (List Nat)) (h : parts ≠ []) :
    joinSlash (p :: parts) = p ++ 47 :: joinSlash parts := by
  rcases parts with _ | ⟨q, ps⟩
  · exact absurd rfl h
  · rfl

/-- Inside a segment, identifier characters are consumed one by one without
changing the matcher state or count. -/
lemma pathRun_ident_run (cs : List Nat) (r : List Nat) (count : Nat)
    (hcs : ∀ b ∈ cs, isIdentB b = true) :
    pathRun (cs ++ r) 1 count = pathRun r 1 count := by
  induction cs with
  | nil => rfl
  | cons b t ih =>
    rw [List.cons_append, pathRun, if_pos (hcs b (by simp))]
    exact ih (fun x hx => hcs x (by simp [hx]))

/-- Completeness of the path matcher: a join of at least `2 - count` good
segments is accepted from the segment-start state. -/
lemma pathRun_complete : ∀ (parts : List (List Nat)) (count : Nat), parts ≠ [] →
    (∀ p ∈ parts, SegGood p) → 2 ≤ count + parts.length →
    pathRun (joinSlash parts) 0 count = true := by
  intro parts
  induction parts with
  | nil =>
    intro count h
    exact absurd rfl h
  | cons p parts ih =>
    intro count hne hgood hcount
    obtain ⟨c, cs, hp, hc, hcs⟩ := hgood p (by simp)
    subst hp
    rcases parts with _ | ⟨q, ps⟩
    · show pathRun (c :: cs) 0 count = true
      rw [pathRun, if_pos hc]
      rw [show cs = cs ++ [] by simp, pathRun_ident_run cs [] (count + 1) hcs]
      rw [pathRun]
      simp only [List.length_cons, List.length_nil] at hcount
      simp
      omega
    · rw [joinSlash_cons _ (q :: ps) (by simp)]
      rw [List.cons_append, pathRun, if_pos hc]
      rw [pathRun_ident_run cs _ (count + 1) hcs]
      rw [pathRun, if_neg (by decide), if_pos (show ((47 : Nat) == 47) = true by decide)]
      exact ih (count + 1) (by simp) (fun x hx => hgood x (by simp [hx]))
        (by simp; omega)

/-- Soundness of the path matcher: an accepted input decomposes into good
segments (state 0: at a segment start; state 1: inside a segment). -/
lemma pathRun_sound : ∀ (s : List Nat) (count : Nat),
    (pathRun s 0 count = true →
      ∃ parts, parts ≠ [] ∧ (∀ p ∈ parts, SegGood p) ∧ s = joinSlash parts ∧
        2 ≤ count + parts.length) ∧
    (pathRun s 1 count = true →
      (∃ cs, (∀ b ∈ cs, isIdentB b = true) ∧ s = cs ∧ 2 ≤ count) ∨
      (∃ cs parts, (∀ b ∈ cs, isIdentB b = true) ∧ parts ≠ [] ∧
        (∀ p ∈ parts, SegGood p) ∧ s = cs ++ 47 :: joinSlash parts ∧
        2 ≤ count + parts.length)) := by
  intro s
  induction s with
  | nil =>
    intro count
    constructor
    · intro h
      rw [pathRun] at h
      simp at h
    · intro h
      rw [pathRun] at h
      simp at h
      exact Or.inl ⟨[], by simp, rfl, by omega⟩
  | cons b rest ih =>
    intro count
    constructor
    · intro h
      rw [pathRun] at h
      by_cases hb : isLetterB b = true
      · rw [if_pos hb] at h
        rcases (ih (count + 1)).2 h with ⟨cs, hcs, hrest, hcount⟩ |
          ⟨cs, parts, hcs, hne, hgood, hrest, hcount⟩
        · refine ⟨[b :: cs], by simp, ?_, ?_, ?_⟩
          · intro p hp
            rw [List.mem_singleton] at hp
            exact ⟨b, cs, hp, hb, hcs⟩
          · rw [hrest]
            rfl
          · simp
            omega
        · refine ⟨(b :: cs) :: parts, by simp, ?_, ?_, ?_⟩
          · intro p hp
            rcases List.mem_cons.mp hp with hp1 | hp2
            · exact ⟨b, cs, hp1, hb, hcs⟩
            · exact hgood p hp2
          · rw [joinSlash_cons _ parts hne, hrest]
            rfl
          · simp at hcount ⊢
            omega
      · rw [if_neg hb] at h
        exact absurd h (by simp)
    · intro h
      rw [pathRun] at h
      by_cases hb : isIdentB b = true
      · rw [if_pos hb] at h
        rcases (ih count).2 h with ⟨cs, hcs, hrest, hc2⟩ |
          ⟨cs, parts, hcs, hne, hgood, hrest, hcount⟩
        · refine Or.inl ⟨b :: cs, ?_, by rw [hrest], hc2⟩
          intro x hx
          rcases List.mem_cons.mp hx with hx1 | hx2
          · rw [hx1]
            exact hb
          · exact hcs x hx2
        · refine Or.inr ⟨b :: cs, parts, ?_, hne, hgood, ?_, hcount⟩
          · intro x hx
            rcases List.mem_cons.mp hx with hx1 | hx2
            · rw [hx1]
              exact hb
            · exact hcs x hx2
          · rw [hrest]
            rfl
      · rw [if_neg hb] at h
        by_cases h47 : (b == 47) = true
        · rw [if_pos h47] at h
          rcases (ih count).1 h with ⟨parts, hne, hgood, hrest, hcount⟩
          refine Or.inr ⟨[], parts, by simp, hne, hgood, ?_, hcount⟩
          have hb47 : b = 47 := by simpa using h47
          rw [hb47, hrest]
          rfl
        · rw [if_neg h47] at h
          exact absurd h (by simp)

/-- The path matcher accepts exactly the joins of two or more good segments:
the language of the regex `[a-zA-Z][a-zA-Z0-9_]*(/[a-zA-Z][a-zA-Z0-9_]*)+`. -/
lemma path_pattern_match_iff (s : List Nat) :
    path_pattern_match s = true ↔
      ∃ parts : List (List Nat), 2 ≤ parts.length ∧ (∀ p ∈ parts, SegGood p) ∧
        s = joinSlash parts := by
  constructor
  · intro h
    rcases (pathRun_sound s 0).1 h with ⟨parts, hne, hgood, hs, hcount⟩
    exact ⟨parts, by omega, hgood, hs⟩
  · rintro ⟨parts, h2, hgood, rfl⟩
    refine pathRun_complete parts 0 ?_ hgood (by omega)
    intro hnil
    rw [hnil] at h2
    simp at h2

/-- C8 counterexample: the printable run `main` is extracted from the data,
is a single slash-separated identifier segment beginning with a letter (the
claim's grammar with one segment), yet find_parameter_paths discards it: the
regex requires at least two segments. -/
theorem path_single_segment_counterexample :
    extract_strings [109, 97, 105, 110] 3 = [[109, 97, 105, 110]] ∧
    find_parameter_paths [[109, 97, 105, 110]] = [] ∧
    SegGood [109, 97, 105, 110] := by
  refine ⟨by decide, by decide, 109, [97, 105, 110], rfl, by decide, by decide⟩

/-- C8 (amended): a printable run extracted from a decompressed block is
classified as a parameter path if and only if it is the join of two or more
slash-separated ASCII identifier segments, each beginning with a letter;
every other printable run (including single-segment identifiers with no
slash) is discarded. -/
theorem find_parameter_paths_classified (data : List Nat) (minLen : Nat)
    (s : List Nat) :
    s ∈ find_parameter_paths (extract_strings data minLen) ↔
      s ∈ extract_strings data minLen ∧
      ∃ parts : List (List Nat), 2 ≤ parts.length ∧ (∀ p ∈ parts, SegGood p) ∧
        s = joinSlash parts := by
  unfold find_parameter_paths
  rw [List.mem_filter]
  exact and_congr_right (fun _ => path_pattern_match_iff s)
